import Mathlib

/-
  A shallow embedding of ts-typed-events (src/index.ts).

  The library manages, per event, a private field `listeners`, a JS array of
  `Listener` records.  JavaScript array aliasing is load-bearing for the
  dispatch semantics, so the embedding models array objects explicitly: a
  heap of arrays addressed by ids, with the event's `this.listeners` field
  a pointer (`evPtr`) into that heap.
    - `on` / `once` push onto the array currently pointed to,
    - `off` builds a *new* filtered array and repoints `this.listeners`,
    - `offAll` truncates the pointed-to array in place,
    - `emit` captures the array *reference* at entry, iterates it live
      (a `for..of` loop re-reads the array's length and elements each step),
      and afterwards repoints `this.listeners` to a fresh array holding the
      non-`once` entries of the captured array.

  User callbacks are opaque identities (`Nat`); their runtime behaviour is
  supplied by an environment mapping each identity to the reentrant
  operations it performs on the same event when invoked, plus whether it
  throws.  Promise resolve functions are modelled as resolver callbacks that
  fill a write-once cell; a promise's continuation is invoked exactly when
  its cell is filled.
-/

namespace TsTypedEvents

/-- The runtime identity of a stored callback: either a user function,
named by an opaque id, or the `resolve` function of the promise `pid`
created by the no-argument overload of `once`. -/
inductive CallbackKind where
  | user (id : Nat)
  | resolver (pid : Nat)
deriving DecidableEq, Repr

/-- One entry of the `listeners` array: the `once` flag, the callback, and
the optional promise handle attached by the no-argument `once` overload. -/
structure Listener where
  once : Bool
  callback : CallbackKind
  promise : Option Nat
deriving DecidableEq, Repr

/-- The identity passed to `off`: either a user callback reference or a
promise handle previously returned by `once()`. -/
inductive OffTarget where
  | cb (id : Nat)
  | prom (pid : Nat)
deriving DecidableEq, Repr

/-- A reentrant operation a user callback may perform on the same event
while being invoked during a dispatch. -/
inductive Effect where
  | on (cb : Nat)
  | onceCb (cb : Nat)
  | off (t : OffTarget)
  | offAll
deriving DecidableEq, Repr

/-- The behaviour of one user callback: the reentrant operations it performs
on the event, in order, and whether it then throws. -/
structure CBehavior where
  effects : List Effect
  throws : Bool

/-- An environment assigning each user-callback identity its behaviour. -/
def Env : Type := Nat → CBehavior

/-- The complete machine state of one event, payload type `T`:
`heap` is the JS array heap (array ids are list indices), `evPtr` the array
id currently stored in the event's private `listeners` field, `promises`
the write-once cells of promises created by `once()` (`none` = pending),
`log` the sequence of user-callback invocations with their values, and
`offLog` the sequence of boolean results observed by reentrant `off` calls. -/
structure St (T : Type) where
  heap : List (List Listener)
  evPtr : Nat
  promises : List (Option T)
  log : List (Nat × T)
  offLog : List Bool

/-- The state of a freshly constructed event: one empty listeners array. -/
def initSt (T : Type) : St T :=
  ⟨[[]], 0, [], [], []⟩

/-- Read the contents of array object `i` from the heap. -/
def arrAt {T : Type} (s : St T) (i : Nat) : List Listener :=
  s.heap.getD i []

/-- Overwrite the contents of array object `i` (an in-place JS mutation). -/
def setArr {T : Type} (s : St T) (i : Nat) (xs : List Listener) : St T :=
  { s with heap := s.heap.set i xs }

/-- Allocate a fresh array object holding `xs`; returns its id. -/
def alloc {T : Type} (s : St T) (xs : List Listener) : St T × Nat :=
  ({ s with heap := s.heap ++ [xs] }, s.heap.length)

/-- The current contents of the event's `listeners` field. -/
def listenersOf {T : Type} (s : St T) : List Listener :=
  arrAt s s.evPtr

/-- `this.listeners.push(l)`: appends in place to the pointed-to array. -/
def pushListener {T : Type} (l : Listener) (s : St T) : St T :=
  setArr s s.evPtr (arrAt s s.evPtr ++ [l])

/-- `BaseEvent.on(callback)`: pushes a non-once listener. -/
def BaseEvent.on {T : Type} (c : Nat) (s : St T) : St T :=
  pushListener ⟨false, .user c, none⟩ s

/-- `BaseEvent.once(callback)` (callback overload): pushes a once listener. -/
def onceCallback {T : Type} (c : Nat) (s : St T) : St T :=
  pushListener ⟨true, .user c, none⟩ s

/-- `BaseEvent.once()` (promise overload): creates a promise, pushes a once
listener whose callback is the promise's `resolve`, then sets the `promise`
field of the last element of the `listeners` array to the new promise.
Returns the promise's id. -/
def oncePromise {T : Type} (s : St T) : St T × Nat :=
  let pid := s.promises.length
  let s1 : St T := { s with promises := s.promises ++ [none] }
  let s2 := pushListener ⟨true, .resolver pid, none⟩ s1
  let arr := arrAt s2 s2.evPtr
  let last := arr.getD (arr.length - 1) ⟨true, .resolver pid, none⟩
  (setArr s2 s2.evPtr (arr.set (arr.length - 1) { last with promise := some pid }), pid)

/-- Whether the identity passed to `off` is reference-equal to a stored
callback (`listener !== l.callback` in the source, negated). -/
def matchesCb (t : OffTarget) (c : CallbackKind) : Bool :=
  match t, c with
  | .cb i, .user j => i == j
  | _, _ => false

/-- Whether the identity passed to `off` is reference-equal to a stored
promise handle (`listener !== l.promise` in the source, negated). -/
def matchesProm (t : OffTarget) (p : Option Nat) : Bool :=
  match t, p with
  | .prom q, some p => p == q
  | _, _ => false

/-- The filter predicate of `BaseEvent.off`:
`listener !== l.callback && (!l.promise || listener !== l.promise)`. -/
def keepListener (t : OffTarget) (l : Listener) : Bool :=
  !(matchesCb t l.callback) && (l.promise.isNone || !(matchesProm t l.promise))

/-- `BaseEvent.off(listener)`: filters the listeners into a *new* array,
repoints `this.listeners` at it, and returns whether the length changed. -/
def off {T : Type} (t : OffTarget) (s : St T) : St T × Bool :=
  let arr := arrAt s s.evPtr
  let filtered := arr.filter (keepListener t)
  let p := alloc s filtered
  ({ p.1 with evPtr := p.2 }, decide (filtered.length ≠ arr.length))

/-- `BaseEvent.offAll()`: `this.listeners.length = 0` empties the pointed-to
array in place; returns the previous length. -/
def offAll {T : Type} (s : St T) : St T × Nat :=
  let arr := arrAt s s.evPtr
  (setArr s s.evPtr [], arr.length)

/-- Execute one reentrant operation performed by a user callback. The result
of a reentrant `off` is recorded in `offLog`. -/
def runEffect {T : Type} (e : Effect) (s : St T) : St T :=
  match e with
  | .on c => BaseEvent.on c s
  | .onceCb c => onceCallback c s
  | .off t =>
      let p := off t s
      { p.1 with offLog := p.1.offLog ++ [p.2] }
  | .offAll => (offAll s).1

/-- Invoke one stored listener with value `v`. A resolver fills its promise
cell if it is still pending (a JS promise resolves at most once). A user
callback is logged, performs its reentrant effects in order, and reports
whether it throws. -/
def invokeListener {T : Type} (env : Env) (v : T) (l : Listener) (s : St T) :
    St T × Bool :=
  match l.callback with
  | .resolver pid =>
      match s.promises.getD pid none with
      | none => ({ s with promises := s.promises.set pid (some v) }, false)
      | some _ => (s, false)
  | .user c =>
      let b := env c
      let s1 : St T := { s with log := s.log ++ [(c, v)] }
      (b.effects.foldl (fun acc e => runEffect e acc) s1, b.throws)

/-- The `for (const listener of listeners)` loop of `emit`, iterating the
captured array object `cid` *live*: each step re-reads the array's current
length and element `i` from the heap. Returns `true` when a callback threw
(aborting the loop). `fuel` bounds the iteration, since reentrant pushes can
extend the array without bound; `none` means fuel ran out. -/
def emitLoop {T : Type} (env : Env) (v : T) (cid : Nat) :
    Nat → Nat → St T → Option (St T × Bool)
  | 0, _, _ => none
  | fuel + 1, i, s =>
      let arr := arrAt s cid
      if h : i < arr.length then
        let p := invokeListener env v (arr.get ⟨i, h⟩) s
        if p.2 then some (p.1, true) else emitLoop env v cid fuel (i + 1) p.1
      else some (s, false)

/-- The emitter function produced by `createEmitterWithBaseEvent`:
captures the `listeners` array reference, computes `hadListeners`, invokes
each listener of the live array, then repoints `this.listeners` at a fresh
array holding the captured array's non-once entries, and returns
`hadListeners`. A throw propagates (`Except.error`), skipping the filter.  -/
def emit {T : Type} (env : Env) (fuel : Nat) (v : T) (s : St T) :
    Option (St T × Except Unit Bool) :=
  let cid := s.evPtr
  let had := decide (0 < (arrAt s cid).length)
  match emitLoop env v cid fuel 0 s with
  | none => none
  | some (s1, true) => some (s1, .error ())
  | some (s1, false) =>
      let filtered := (arrAt s1 cid).filter (fun l => !l.once)
      let p := alloc s1 filtered
      some ({ p.1 with evPtr := p.2 }, .ok had)

/-- A sequence of top-level dispatches, each with the same fuel. -/
def emitSeq {T : Type} (env : Env) (fuel : Nat) :
    List T → St T → Option (St T)
  | [], s => some s
  | v :: vs, s =>
      match emit env fuel v s with
      | none => none
      | some (s1, _) => emitSeq env fuel vs s1

/-- Observable outcome of an `emit` call. -/
inductive Outcome where
  | fuelOut
  | threw
  | ret (b : Bool)
deriving DecidableEq, Repr

/-- Project the outcome of an `emit` result. -/
def resOutcome {T : Type} : Option (St T × Except Unit Bool) → Outcome
  | none => .fuelOut
  | some (_, .error _) => .threw
  | some (_, .ok b) => .ret b

/-- Project the final listeners of an `emit` result. -/
def resListeners {T : Type} : Option (St T × Except Unit Bool) → List Listener
  | none => []
  | some (s, _) => listenersOf s

/-- Project the invocation log of an `emit` result. -/
def resLog {T : Type} : Option (St T × Except Unit Bool) → List (Nat × T)
  | none => []
  | some (s, _) => s.log

/-- The event's `listeners` field points at a live array object. -/
def StWF {T : Type} (s : St T) : Prop := s.evPtr < s.heap.length


/-- An environment whose user callbacks perform no reentrant operations on
the event (they may still throw). -/
def NoEffects (env : Env) : Prop := ∀ c, (env c).effects = []

/-- An environment whose user callbacks perform no reentrant operations and
never throw. -/
def PureEnv (env : Env) : Prop := ∀ c, (env c).effects = [] ∧ (env c).throws = false


/-- The invocation-log entries produced by dispatching `v` to a listener
list, in list order: one entry per user callback. -/
def userEntries {T : Type} (v : T) (ls : List Listener) : List (Nat × T) :=
  ls.filterMap (fun l =>
    match l.callback with
    | .user c => some (c, v)
    | .resolver _ => none)

/-- Reference recursion describing the effect of one dispatch pass over a
listener list when no listener performs reentrant operations: accumulates
the log and promise cells and reports whether some callback threw
(truncating the pass there). -/
def runPure {T : Type} (env : Env) (v : T) :
    List Listener → List (Nat × T) → List (Option T) →
      List (Nat × T) × List (Option T) × Bool
  | [], log, ps => (log, ps, false)
  | l :: rest, log, ps =>
      match l.callback with
      | .resolver pid =>
          match ps.getD pid none with
          | none => runPure env v rest log (ps.set pid (some v))
          | some _ => runPure env v rest log ps
      | .user c =>
          if (env c).throws then (log ++ [(c, v)], ps, true)
          else runPure env v rest (log ++ [(c, v)]) ps


/-- Listener lists consisting only of user callbacks (no pending promise
resolvers). -/
def AllUser (ls : List Listener) : Prop :=
  ∀ l ∈ ls, ∃ c, l.callback = CallbackKind.user c


/-- The identity structure of the emitter function object built by
`createEmitterWithBaseEvent`: `func.event = event` and `func.emit = emit`
where `func` and `emit` are the same function object, so the `emit` field
holds the object's own identity. -/
structure EmitterObj where
  self : Nat
  event : Nat
  emit : Nat
deriving DecidableEq, Repr

/-- `createEmitterWithBaseEvent(event)`: builds the emitter function object
`fid` bound to event object `eid`, with `event := eid` and
`emit := fid` (itself). -/
def createEmitterWithBaseEvent (fid eid : Nat) : EmitterObj :=
  ⟨fid, eid, fid⟩

/-- The self-dispatching `Event` class: the object id together with its
`emit` member, which is `createEmitterWithBaseEvent(this)`. -/
structure EventObj where
  id : Nat
  memberEmit : EmitterObj
deriving DecidableEq, Repr

/-- `new Event()` with object id `eid`, the member emitter function getting
object id `fid`. -/
def newEvent (eid fid : Nat) : EventObj :=
  ⟨eid, createEmitterWithBaseEvent fid eid⟩

/-- `createEventEmitter()`: a fresh `Event` (with its member emitter `f1`)
and a second emitter `f2` bound to the same event. -/
def createEventEmitter (eid f1 f2 : Nat) : EventObj × EmitterObj :=
  (newEvent eid f1, createEmitterWithBaseEvent f2 eid)

/-- `createEmitter()`: a fresh `SealedEvent` id and an emitter bound to it. -/
def createEmitter (eid fid : Nat) : Nat × EmitterObj :=
  (eid, createEmitterWithBaseEvent fid eid)

/-- The registries of all event objects, addressed by event object id. -/
def World (T : Type) : Type := Nat → St T

/-- Calling an emitter function object: it reads the registry of the event
it closed over, dispatches there, and writes the new registry back. -/
def EmitterObj.call {T : Type} (em : EmitterObj) (env : Env) (fuel : Nat)
    (v : T) (w : World T) : Option (World T × Except Unit Bool) :=
  match TsTypedEvents.emit env fuel v (w em.event) with
  | none => none
  | some (s', r) => some (fun eid => if eid = em.event then s' else w eid, r)

/-! ### Basic list helpers -/

theorem listGetD_set_self {α : Type} (l : List α) (i : Nat) (a d : α)
    (h : i < l.length) : (l.set i a).getD i d = a := by
  simp [List.getD_eq_getElem?_getD, List.getElem?_set_self, h]

theorem listGetD_concat_len {α : Type} (l : List α) (x d : α) :
    (l ++ [x]).getD l.length d = x := by
  simp [List.getD_eq_getElem?_getD]

theorem listGetD_append_left {α : Type} (l m : List α) (i : Nat) (d : α)
    (h : i < l.length) : (l ++ m).getD i d = l.getD i d := by
  simp [List.getD_eq_getElem?_getD, List.getElem?_append_left h]

theorem listSet_concat_len {α : Type} (l : List α) (x y : α) :
    (l ++ [x]).set l.length y = l ++ [y] := by
  induction l with
  | nil => rfl
  | cons a t ih => simp [List.set, ih]

/-! ### Well-formedness and basic state lemmas -/

theorem stWF_init (T : Type) : StWF (initSt T) := by
  simp [StWF, initSt]

theorem arrAt_setArr_self {T : Type} (s : St T) (i : Nat) (xs : List Listener)
    (h : i < s.heap.length) : arrAt (setArr s i xs) i = xs := by
  simp [arrAt, setArr, listGetD_set_self, h]

theorem listenersOf_push {T : Type} (s : St T) (l : Listener) (hs : StWF s) :
    listenersOf (pushListener l s) = listenersOf s ++ [l] := by
  have hp : s.evPtr < s.heap.length := hs
  simp only [listenersOf, pushListener, setArr, arrAt]
  exact listGetD_set_self _ _ _ _ hp

theorem stWF_push {T : Type} (s : St T) (l : Listener) (hs : StWF s) :
    StWF (pushListener l s) := by
  simpa [StWF, pushListener, setArr] using hs

theorem listenersOf_on {T : Type} (s : St T) (c : Nat) (hs : StWF s) :
    listenersOf (BaseEvent.on c s) = listenersOf s ++ [⟨false, .user c, none⟩] :=
  listenersOf_push s _ hs

theorem listenersOf_onceCallback {T : Type} (s : St T) (c : Nat) (hs : StWF s) :
    listenersOf (onceCallback c s) = listenersOf s ++ [⟨true, .user c, none⟩] :=
  listenersOf_push s _ hs

theorem stWF_on {T : Type} (s : St T) (c : Nat) (hs : StWF s) :
    StWF (BaseEvent.on c s) := stWF_push s _ hs

theorem stWF_onceCallback {T : Type} (s : St T) (c : Nat) (hs : StWF s) :
    StWF (onceCallback c s) := stWF_push s _ hs

theorem oncePromise_pid {T : Type} (s : St T) :
    (oncePromise s).2 = s.promises.length := rfl

theorem oncePromise_promises {T : Type} (s : St T) :
    (oncePromise s).1.promises = s.promises ++ [none] := rfl

theorem listenersOf_oncePromise {T : Type} (s : St T) (hs : StWF s) :
    listenersOf (oncePromise s).1 =
      listenersOf s ++ [⟨true, .resolver s.promises.length, some s.promises.length⟩] := by
  have hp : s.evPtr < s.heap.length := hs
  simp only [oncePromise, pushListener, setArr, arrAt, listenersOf]
  rw [listGetD_set_self _ _ _ _ hp]
  rw [List.set_set]
  have hlen : (s.heap.getD s.evPtr [] ++
      [(⟨true, .resolver s.promises.length, none⟩ : Listener)]).length - 1
      = (s.heap.getD s.evPtr []).length := by simp
  rw [hlen, listGetD_concat_len, listSet_concat_len]
  exact listGetD_set_self _ _ _ _ hp

theorem stWF_oncePromise {T : Type} (s : St T) (hs : StWF s) :
    StWF (oncePromise s).1 := by
  simpa [StWF, oncePromise, pushListener, setArr] using hs

theorem listenersOf_off {T : Type} (s : St T) (t : OffTarget) :
    listenersOf (off t s).1 = (listenersOf s).filter (keepListener t) := by
  simp [listenersOf, off, alloc, arrAt, listGetD_concat_len]

theorem off_ret {T : Type} (s : St T) (t : OffTarget) :
    (off t s).2 =
      decide (((listenersOf s).filter (keepListener t)).length ≠ (listenersOf s).length) :=
  rfl

theorem off_log {T : Type} (s : St T) (t : OffTarget) :
    (off t s).1.log = s.log := rfl

theorem off_promises {T : Type} (s : St T) (t : OffTarget) :
    (off t s).1.promises = s.promises := rfl

theorem stWF_off {T : Type} (s : St T) (t : OffTarget) : StWF (off t s).1 := by
  simp [StWF, off, alloc]

theorem offAll_ret {T : Type} (s : St T) :
    (offAll s).2 = (listenersOf s).length := rfl

theorem listenersOf_offAll {T : Type} (s : St T) (hs : StWF s) :
    listenersOf (offAll s).1 = [] := by
  have hp : s.evPtr < s.heap.length := hs
  simp only [listenersOf, offAll, setArr, arrAt]
  exact listGetD_set_self _ _ _ _ hp

theorem stWF_offAll {T : Type} (s : St T) (hs : StWF s) : StWF (offAll s).1 := by
  simpa [StWF, offAll, setArr] using hs

/-! ### Characterizing dispatch when callbacks perform no reentrant operations -/

theorem PureEnv.noEffects {env : Env} (h : PureEnv env) : NoEffects env :=
  fun c => (h c).1

theorem invokeListener_noeff_user {T : Type} {env : Env} (henv : NoEffects env)
    (v : T) (s : St T) (c : Nat) (o : Bool) (pr : Option Nat) :
    invokeListener env v ⟨o, .user c, pr⟩ s =
      ({ s with log := s.log ++ [(c, v)] }, (env c).throws) := by
  simp [invokeListener, henv c]

/-- One dispatch loop over the captured array `cid`, when callbacks perform
no reentrant operations, is described by `runPure` on the unvisited suffix:
the heap (hence the captured array) never changes during the pass. -/
theorem emitLoop_noeff {T : Type} {env : Env} (henv : NoEffects env)
    (v : T) (cid : Nat) :
    ∀ (fuel i : Nat) (s : St T),
      i ≤ (arrAt s cid).length → (arrAt s cid).length < i + fuel →
      emitLoop env v cid fuel i s =
        some ({ s with
                  log := (runPure env v ((arrAt s cid).drop i) s.log s.promises).1,
                  promises := (runPure env v ((arrAt s cid).drop i) s.log s.promises).2.1 },
              (runPure env v ((arrAt s cid).drop i) s.log s.promises).2.2) := by
  intro fuel
  induction fuel with
  | zero => intro i s hi h; omega
  | succ fuel ih =>
      intro i s hile h
      rw [emitLoop]
      by_cases hi : i < (arrAt s cid).length
      · rw [dif_pos hi]
        have hdrop : (arrAt s cid).drop i =
            (arrAt s cid).get ⟨i, hi⟩ :: (arrAt s cid).drop (i + 1) :=
          List.drop_eq_getElem_cons hi
        rcases hl : (arrAt s cid).get ⟨i, hi⟩ with ⟨o, cb, pr⟩
        cases cb with
        | user c =>
            simp only [invokeListener_noeff_user henv]
            by_cases ht : (env c).throws = true
            · rw [if_pos ht, hdrop, hl]
              simp [runPure, ht]
            · rw [if_neg ht]
              have harr : arrAt ({ s with log := s.log ++ [(c, v)] } : St T) cid
                  = arrAt s cid := rfl
              rw [ih (i + 1) _ (by rw [harr]; omega) (by rw [harr]; omega)]
              rw [harr, hdrop, hl]
              simp [runPure, ht]
        | resolver pid =>
            rcases hp : s.promises.getD pid none with _ | w
            · have hp2 : s.promises[pid]?.getD none = none := by
                simpa [List.getD_eq_getElem?_getD] using hp
              simp only [invokeListener, hp]
              have harr : arrAt ({ s with promises := s.promises.set pid (some v) } : St T) cid
                  = arrAt s cid := rfl
              rw [if_neg (by simp)]
              rw [ih (i + 1) _ (by rw [harr]; omega) (by rw [harr]; omega)]
              rw [harr, hdrop, hl]
              simp [runPure, hp, hp2]
            · have hp2 : s.promises[pid]?.getD none = some w := by
                simpa [List.getD_eq_getElem?_getD] using hp
              simp only [invokeListener, hp]
              rw [if_neg (by simp)]
              rw [ih (i + 1) _ (by omega) (by omega)]
              rw [hdrop, hl]
              simp [runPure, hp, hp2]
      · rw [dif_neg hi]
        have hdrop : (arrAt s cid).drop i = [] :=
          List.drop_eq_nil_of_le (by omega)
        rw [hdrop]
        simp [runPure]

/-- A full `emit` under a no-reentrancy environment: the pass is described
by `runPure` on the listener list at entry; a throw yields `Except.error`
with the listener list untouched, otherwise the event is repointed at a
fresh array holding the non-once survivors and `hadListeners` is returned. -/
theorem emit_noeff {T : Type} {env : Env} (henv : NoEffects env)
    (fuel : Nat) (v : T) (s : St T)
    (hf : (listenersOf s).length < fuel) :
    emit env fuel v s =
      (if (runPure env v (listenersOf s) s.log s.promises).2.2 then
        some ({ s with
                  log := (runPure env v (listenersOf s) s.log s.promises).1,
                  promises := (runPure env v (listenersOf s) s.log s.promises).2.1 },
              Except.error ())
      else
        some ({ s with
                  heap := s.heap ++ [(listenersOf s).filter (fun l => !l.once)],
                  evPtr := s.heap.length,
                  log := (runPure env v (listenersOf s) s.log s.promises).1,
                  promises := (runPure env v (listenersOf s) s.log s.promises).2.1 },
              Except.ok (decide (0 < (listenersOf s).length)))) := by
  have hloop := emitLoop_noeff henv v s.evPtr fuel 0 s (by omega) (by simpa using hf)
  rw [emit, hloop]
  simp only [List.drop_zero]
  by_cases hthrew : (runPure env v (arrAt s s.evPtr) s.log s.promises).2.2 = true
  · rw [hthrew]
    simp [listenersOf, hthrew]
  · rw [Bool.not_eq_true] at hthrew
    rw [hthrew]
    simp only [listenersOf] at *
    rw [hthrew]
    simp [alloc, arrAt]

/-- Dispatch on an event with no listeners: returns `false`, touches neither
the log nor the promises, and leaves the listener list empty (the post-pass
filter repoints at a fresh empty array). Holds for every environment. -/
theorem emit_empty {T : Type} (env : Env) (fuel : Nat) (v : T) (s : St T)
    (h : listenersOf s = []) (hf : 0 < fuel) :
    emit env fuel v s =
      some ({ s with heap := s.heap ++ [[]], evPtr := s.heap.length },
            Except.ok false) := by
  obtain ⟨fuel, rfl⟩ : ∃ k, fuel = k + 1 := ⟨fuel - 1, by omega⟩
  rw [emit, emitLoop]
  simp only [listenersOf] at h
  rw [dif_neg (by rw [h]; simp)]
  simp [h, alloc]

/-! ### Structure of `runPure` -/

theorem runPure_append {T : Type} (env : Env) (v : T) (l1 l2 : List Listener) :
    ∀ (log : List (Nat × T)) (ps : List (Option T)),
      (runPure env v l1 log ps).2.2 = false →
      runPure env v (l1 ++ l2) log ps =
        runPure env v l2 (runPure env v l1 log ps).1 (runPure env v l1 log ps).2.1 := by
  induction l1 with
  | nil => intro log ps _; simp [runPure]
  | cons l rest ih =>
      intro log ps hnt
      rcases l with ⟨o, cb, pr⟩
      cases cb with
      | user c =>
          by_cases ht : (env c).throws = true
          · rw [runPure] at hnt; simp [ht] at hnt
          · rw [List.cons_append, runPure]
            simp only [ht, if_false]
            rw [runPure] at hnt
            simp only [ht, if_false] at hnt
            rw [ih _ _ hnt]
            rw [runPure]
            simp [ht]
      | resolver pid =>
          rcases hp : ps.getD pid none with _ | w
          · have hp2 : ps[pid]?.getD none = none := by
              simpa [List.getD_eq_getElem?_getD] using hp
            rw [List.cons_append, runPure]
            simp only [hp, hp2]
            rw [runPure] at hnt
            simp only [hp, hp2] at hnt
            rw [ih _ _ hnt]
            rw [runPure]
            simp [hp, hp2]
          · have hp2 : ps[pid]?.getD none = some w := by
              simpa [List.getD_eq_getElem?_getD] using hp
            rw [List.cons_append, runPure]
            simp only [hp, hp2]
            rw [runPure] at hnt
            simp only [hp, hp2] at hnt
            rw [ih _ _ hnt]
            rw [runPure]
            simp [hp, hp2]

/-- Under a non-throwing, non-reentrant environment a pass never throws. -/
theorem runPure_pure_noThrow {T : Type} {env : Env} (henv : PureEnv env) (v : T) :
    ∀ (ls : List Listener) (log : List (Nat × T)) (ps : List (Option T)),
      (runPure env v ls log ps).2.2 = false := by
  intro ls
  induction ls with
  | nil => intro log ps; simp [runPure]
  | cons l rest ih =>
      intro log ps
      rcases l with ⟨o, cb, pr⟩
      cases cb with
      | user c => rw [runPure]; simp [(henv c).2, ih]
      | resolver pid =>
          rcases hp : ps.getD pid none with _ | w
          · have hp2 : ps[pid]?.getD none = none := by
              simpa [List.getD_eq_getElem?_getD] using hp
            rw [runPure]; simp [hp, hp2, ih]
          · have hp2 : ps[pid]?.getD none = some w := by
              simpa [List.getD_eq_getElem?_getD] using hp
            rw [runPure]; simp [hp, hp2, ih]

/-- Under a non-throwing, non-reentrant environment the pass appends exactly
one log entry per user callback, in listener-list order. -/
theorem runPure_pure_log {T : Type} {env : Env} (henv : PureEnv env) (v : T) :
    ∀ (ls : List Listener) (log : List (Nat × T)) (ps : List (Option T)),
      (runPure env v ls log ps).1 = log ++ userEntries v ls := by
  intro ls
  induction ls with
  | nil => intro log ps; simp [runPure, userEntries]
  | cons l rest ih =>
      intro log ps
      rcases l with ⟨o, cb, pr⟩
      cases cb with
      | user c =>
          rw [runPure]
          simp [(henv c).2, ih, userEntries]
      | resolver pid =>
          rcases hp : ps.getD pid none with _ | w
          · have hp2 : ps[pid]?.getD none = none := by
              simpa [List.getD_eq_getElem?_getD] using hp
            rw [runPure]
            simp only [hp, hp2]
            rw [ih]
            simp [userEntries]
          · have hp2 : ps[pid]?.getD none = some w := by
              simpa [List.getD_eq_getElem?_getD] using hp
            rw [runPure]
            simp only [hp, hp2]
            rw [ih]
            simp [userEntries]

/-- A pass over user callbacks alone never touches the promise cells. -/
theorem runPure_allUser_promises {T : Type} {env : Env} (henv : PureEnv env) (v : T) :
    ∀ (ls : List Listener), AllUser ls →
      ∀ (log : List (Nat × T)) (ps : List (Option T)),
        (runPure env v ls log ps).2.1 = ps := by
  intro ls
  induction ls with
  | nil => intro _ log ps; simp [runPure]
  | cons l rest ih =>
      intro hall log ps
      obtain ⟨c, hc⟩ := hall l (by simp)
      rcases l with ⟨o, cb, pr⟩
      simp only [Listener.callback] at hc
      subst hc
      rw [runPure]
      simp [(henv c).2, ih (fun x hx => hall x (by simp [hx]))]

/-- A pass starting at a pending resolver fills its cell with `v`. -/
theorem runPure_resolver_pending {T : Type} (env : Env) (v : T) (o : Bool)
    (pr : Option Nat) (pid : Nat) (rest : List Listener)
    (log : List (Nat × T)) (ps : List (Option T))
    (hp : ps.getD pid none = none) :
    runPure env v (⟨o, .resolver pid, pr⟩ :: rest) log ps =
      runPure env v rest log (ps.set pid (some v)) := by
  have hp2 : ps[pid]?.getD none = none := by
    simpa [List.getD_eq_getElem?_getD] using hp
  rw [runPure]
  simp [hp, hp2]

/-! ### Further shared lemmas -/

/-- The `off` filter keeps exactly the listeners matching neither by
callback reference nor by promise reference. -/
theorem keepListener_eq_not_or (t : OffTarget) (l : Listener) :
    keepListener t l = !(matchesCb t l.callback || matchesProm t l.promise) := by
  rcases l with ⟨o, cb, pr⟩
  cases pr with
  | none =>
      cases t <;> simp [keepListener, matchesProm]
  | some q =>
      cases t <;> simp [keepListener, matchesProm]

/-- The listener list of the state `emit` builds after a completed pass. -/
theorem listenersOf_postEmit {T : Type} (s : St T) (xs : List Listener)
    (ps : List (Option T)) (lg : List (Nat × T)) :
    listenersOf
      ({ s with
          heap := s.heap ++ [xs], evPtr := s.heap.length,
          log := lg, promises := ps }) = xs := by
  simp only [listenersOf, arrAt]
  exact listGetD_concat_len _ _ _

/-- A pass over non-throwing user callbacks: appends their log entries in
order, leaves the promise cells alone, and does not throw. Holds for any
environment, as long as the listed callbacks do not throw. -/
theorem runPure_plain {T : Type} (env : Env) (v : T) :
    ∀ (ls : List Listener),
      (∀ l ∈ ls, ∃ c, l.callback = CallbackKind.user c ∧ (env c).throws = false) →
      ∀ (log : List (Nat × T)) (ps : List (Option T)),
        runPure env v ls log ps = (log ++ userEntries v ls, ps, false) := by
  intro ls
  induction ls with
  | nil => intro _ log ps; simp [runPure, userEntries]
  | cons l rest ih =>
      intro hall log ps
      obtain ⟨c, hc, hth⟩ := hall l (by simp)
      rcases l with ⟨o, cb, pr⟩
      simp only [Listener.callback] at hc
      subst hc
      rw [runPure]
      simp only [hth, if_false, Bool.false_eq_true]
      rw [ih (fun x hx => hall x (by simp [hx])) _ _]
      simp [userEntries]

/-- Dispatch sequences over an event with an empty listener list: every
dispatch returns `false` and changes neither the log nor the promises. -/
theorem emitSeq_empty {T : Type} (env : Env) (fuel : Nat) (hf : 0 < fuel) :
    ∀ (ws : List T) (s : St T), listenersOf s = [] →
      ∃ s', emitSeq env fuel ws s = some s' ∧ s'.log = s.log ∧
        s'.promises = s.promises ∧ listenersOf s' = [] := by
  intro ws
  induction ws with
  | nil => intro s h; exact ⟨s, rfl, rfl, rfl, h⟩
  | cons w ws ih =>
      intro s h
      have he := emit_empty env fuel w s h hf
      have hnext : listenersOf ({ s with heap := s.heap ++ [[]], evPtr := s.heap.length } : St T)
          = [] := by
        simp only [listenersOf, arrAt]
        exact listGetD_concat_len _ _ _
      obtain ⟨s', h1, h2, h3, h4⟩ := ih _ hnext
      refine ⟨s', ?_, h2, h3, h4⟩
      rw [emitSeq, he]
      exact h1

/-- Dispatch sequences under a pure environment over a registry holding only
user callbacks: the promises are never touched, and the listener list only
shrinks (so it stays all-user). -/
theorem emitSeq_allUser {T : Type} {env : Env} (henv : PureEnv env) (fuel : Nat) :
    ∀ (ws : List T) (s : St T), AllUser (listenersOf s) →
      (listenersOf s).length < fuel →
      ∃ s', emitSeq env fuel ws s = some s' ∧ s'.promises = s.promises ∧
        AllUser (listenersOf s') ∧ (listenersOf s').length ≤ (listenersOf s).length := by
  intro ws
  induction ws with
  | nil => intro s hall _; exact ⟨s, rfl, rfl, hall, le_refl _⟩
  | cons w ws ih =>
      intro s hall hf
      have hnt := runPure_pure_noThrow henv w (listenersOf s) s.log s.promises
      have he := emit_noeff henv.noEffects fuel w s hf
      rw [hnt] at he
      simp only [if_false, Bool.false_eq_true] at he
      set s1 : St T := { s with
          heap := s.heap ++ [(listenersOf s).filter (fun l => !l.once)],
          evPtr := s.heap.length,
          log := (runPure env w (listenersOf s) s.log s.promises).1,
          promises := (runPure env w (listenersOf s) s.log s.promises).2.1 } with hs1
      have hl1 : listenersOf s1 = (listenersOf s).filter (fun l => !l.once) := by
        rw [hs1]
        exact listenersOf_postEmit s _ _ _
      have hall1 : AllUser (listenersOf s1) := by
        rw [hl1]
        intro l hl
        exact hall l (List.mem_of_mem_filter hl)
      have hlen1 : (listenersOf s1).length ≤ (listenersOf s).length := by
        rw [hl1]
        exact List.length_filter_le _ _
      have hps1 : s1.promises = s.promises := by
        rw [hs1]
        exact runPure_allUser_promises henv w (listenersOf s) hall s.log s.promises
      obtain ⟨s', h1, h2, h3, h4⟩ := ih s1 hall1 (by omega)
      refine ⟨s', ?_, by rw [h2, hps1], h3, by omega⟩
      rw [emitSeq, he]
      exact h1

/-! ### Claims -/

/-- C4: a call to the emitter returns `true` iff at least one subscriber
existed at dispatch time (the length test is taken before the pass), and
in particular returns `false` on a freshly created event, before any
subscription was ever added. -/
theorem claim_C4_emit_true_iff_had_subscribers {T : Type} (env : Env)
    (fuel : Nat) (v : T) (s s' : St T) (b : Bool)
    (h : emit env fuel v s = some (s', Except.ok b)) :
    (b = true ↔ listenersOf s ≠ []) ∧ (s = initSt T → b = false) := by
  have hb : b = decide (0 < (listenersOf s).length) := by
    simp only [emit] at h
    cases hl : emitLoop env v s.evPtr fuel 0 s with
    | none => rw [hl] at h; simp at h
    | some p =>
        rcases p with ⟨s1, thr⟩
        cases thr with
        | true => rw [hl] at h; simp at h
        | false =>
            rw [hl] at h
            simp only [Option.some.injEq, Prod.mk.injEq, Except.ok.injEq] at h
            exact h.2.symm
  constructor
  · rw [hb]
    simp [List.length_pos_iff_ne_nil]
  · intro hinit
    subst hinit
    rw [hb]
    simp [listenersOf, initSt, arrAt]

/-- Witness for C4 at a concrete input: dispatching on a fresh event with an
environment of inert callbacks returns `false`. -/
theorem claim_C4_witness :
    ((false = true) ↔ listenersOf (initSt Nat) ≠ []) ∧
    (initSt Nat = initSt Nat → false = false) :=
  claim_C4_emit_true_iff_had_subscribers (fun _ => ⟨[], false⟩) 1 0
    (initSt Nat) ⟨[[], []], 1, [], [], []⟩ false rfl

/-- C7: `off` removes exactly the subscriptions whose callback or promise
handle matches the given identity by reference (all of them when several
match), returns `true` iff at least one was removed, and on a
never-registered identity returns `false` leaving the registry (and the
rest of the state) unchanged. -/
theorem claim_C7_off_removes_all_matches {T : Type} (s : St T) (t : OffTarget) :
    listenersOf (off t s).1 =
      (listenersOf s).filter
        (fun l => !(matchesCb t l.callback || matchesProm t l.promise)) ∧
    ((off t s).2 = true ↔
      ∃ l ∈ listenersOf s, (matchesCb t l.callback || matchesProm t l.promise) = true) ∧
    ((∀ l ∈ listenersOf s, (matchesCb t l.callback || matchesProm t l.promise) = false) →
      (off t s).2 = false ∧ listenersOf (off t s).1 = listenersOf s) ∧
    (off t s).1.log = s.log ∧ (off t s).1.promises = s.promises := by
  have hcong : (listenersOf s).filter (keepListener t) =
      (listenersOf s).filter
        (fun l => !(matchesCb t l.callback || matchesProm t l.promise)) :=
    List.filter_congr (fun l _ => by rw [keepListener_eq_not_or])
  refine ⟨by rw [listenersOf_off, hcong], ?_, ?_, rfl, rfl⟩
  · rw [off_ret]
    rw [hcong]
    simp only [decide_eq_true_eq]
    constructor
    · intro hne
      by_contra hnone
      push_neg at hnone
      apply hne
      have hall : ∀ l ∈ listenersOf s,
          (!(matchesCb t l.callback || matchesProm t l.promise)) = true := by
        intro l hl
        have := hnone l hl
        simp only [Bool.not_eq_true] at this ⊢
        simp [this]
      rw [List.filter_eq_self.mpr hall]
    · intro ⟨l, hl, hmatch⟩ heq
      have hmem : l ∈ (listenersOf s).filter
          (fun l => !(matchesCb t l.callback || matchesProm t l.promise)) := by
        have hsub := List.filter_sublist (l := listenersOf s)
          (p := fun l => !(matchesCb t l.callback || matchesProm t l.promise))
        exact (List.Sublist.eq_of_length hsub heq).symm ▸ hl
      have := List.of_mem_filter hmem
      rw [hmatch] at this
      simp at this
  · intro hall
    have hkeep : ∀ l ∈ listenersOf s, keepListener t l = true := by
      intro l hl
      rw [keepListener_eq_not_or, hall l hl]
      rfl
    have hfe : (listenersOf s).filter (keepListener t) = listenersOf s :=
      List.filter_eq_self.mpr hkeep
    exact ⟨by rw [off_ret, hfe]; simp, by rw [listenersOf_off, hfe]⟩

/-- C8: `offAll` removes all `N` current subscriptions, returns `N`, and a
dispatch performed immediately afterwards returns `false`. -/
theorem claim_C8_offAll_removes_all {T : Type} (env : Env) (s : St T)
    (hs : StWF s) (fuel : Nat) (hf : 0 < fuel) (v : T) :
    (offAll s).2 = (listenersOf s).length ∧
    listenersOf (offAll s).1 = [] ∧
    ∃ s', emit env fuel v (offAll s).1 = some (s', Except.ok false) :=
  ⟨offAll_ret s, listenersOf_offAll s hs,
    ⟨_, emit_empty env fuel v _ (listenersOf_offAll s hs) hf⟩⟩

/-- Witness for C8 at a concrete input: an event with two subscriptions. -/
theorem claim_C8_witness :
    (offAll (BaseEvent.on 1 (BaseEvent.on 0 (initSt Nat)))).2 =
      (listenersOf (BaseEvent.on 1 (BaseEvent.on 0 (initSt Nat)))).length ∧
    listenersOf (offAll (BaseEvent.on 1 (BaseEvent.on 0 (initSt Nat)))).1 = [] ∧
    ∃ s', emit (fun _ => ⟨[], false⟩) 1 7
        (offAll (BaseEvent.on 1 (BaseEvent.on 0 (initSt Nat)))).1 =
      some (s', Except.ok false) :=
  claim_C8_offAll_removes_all (fun _ => ⟨[], false⟩) _
    (stWF_on _ 1 (stWF_on _ 0 (stWF_init Nat))) 1 (by decide) 7

/-- C5: subscriptions are kept in insertion order: `on`, `once` (both
overloads) append at the end; `off` and `offAll` remove without reordering
the survivors (the result is a sublist); and a dispatch under callbacks
that do not mutate the event visits the current subscriptions in exactly
that list order (the log extension lists the user callbacks in listener
order), with the post-dispatch once-filter also preserving order. -/
theorem claim_C5_insertion_order {T : Type} (env : Env) (henv : PureEnv env)
    (s : St T) (hs : StWF s) (c : Nat) (t : OffTarget) (v : T) (fuel : Nat)
    (hf : (listenersOf s).length < fuel) :
    listenersOf (BaseEvent.on c s) = listenersOf s ++ [⟨false, .user c, none⟩] ∧
    listenersOf (onceCallback c s) = listenersOf s ++ [⟨true, .user c, none⟩] ∧
    listenersOf (oncePromise s).1 =
      listenersOf s ++ [⟨true, .resolver s.promises.length, some s.promises.length⟩] ∧
    List.Sublist (listenersOf (off t s).1) (listenersOf s) ∧
    listenersOf (offAll s).1 = [] ∧
    ∃ s', emit env fuel v s =
        some (s', Except.ok (decide (0 < (listenersOf s).length))) ∧
      s'.log = s.log ++ userEntries v (listenersOf s) ∧
      listenersOf s' = (listenersOf s).filter (fun l => !l.once) ∧
      List.Sublist (listenersOf s') (listenersOf s) := by
  refine ⟨listenersOf_on s c hs, listenersOf_onceCallback s c hs,
    listenersOf_oncePromise s hs,
    by rw [listenersOf_off]; exact List.filter_sublist _,
    listenersOf_offAll s hs, ?_⟩
  have hnt := runPure_pure_noThrow henv v (listenersOf s) s.log s.promises
  have he := emit_noeff henv.noEffects fuel v s hf
  rw [hnt] at he
  simp only [Bool.false_eq_true, if_false] at he
  refine ⟨_, he, ?_, ?_, ?_⟩
  · exact runPure_pure_log henv v (listenersOf s) s.log s.promises
  · exact listenersOf_postEmit s _ _ _
  · rw [listenersOf_postEmit s _ _ _]
    exact List.filter_sublist _

/-- Witness for C5 at a concrete input: one `on` subscription, dispatch
logs it and keeps it. -/
theorem claim_C5_witness :
    ∃ s', emit (fun _ => ⟨[], false⟩) 2 5 (BaseEvent.on 3 (initSt Nat)) =
        some (s', Except.ok (decide (0 < (listenersOf (BaseEvent.on 3 (initSt Nat))).length))) ∧
      s'.log = (BaseEvent.on 3 (initSt Nat)).log ++
        userEntries 5 (listenersOf (BaseEvent.on 3 (initSt Nat))) ∧
      listenersOf s' = (listenersOf (BaseEvent.on 3 (initSt Nat))).filter (fun l => !l.once) ∧
      List.Sublist (listenersOf s') (listenersOf (BaseEvent.on 3 (initSt Nat))) :=
  (claim_C5_insertion_order (fun _ => ⟨[], false⟩) (fun _ => ⟨rfl, rfl⟩)
    (BaseEvent.on 3 (initSt Nat)) (stWF_on _ 3 (stWF_init Nat)) 1 (.cb 0) 5 2
    (by decide)).2.2.2.2.2

/-- C3: a `once(callback)` subscription is invoked on exactly the first
dispatch after registration: that dispatch returns `true` and logs the
callback once; afterwards the subscription is absent from the registry, a
second dispatch (with it having been the only subscriber) returns `false`,
and no later dispatch sequence ever invokes it again (the log never grows). -/
theorem claim_C3_once_fires_exactly_once {T : Type} (env : Env)
    (henv : PureEnv env) (c : Nat) (v : T) (fuel : Nat) (hf : 1 < fuel)
    (s0 : St T) (hs : StWF s0) (h0 : listenersOf s0 = []) :
    ∃ s2, emit env fuel v (onceCallback c s0) = some (s2, Except.ok true) ∧
      s2.log = s0.log ++ [(c, v)] ∧
      listenersOf s2 = [] ∧
      (∀ w, ∃ s3, emit env fuel w s2 = some (s3, Except.ok false)) ∧
      (∀ ws : List T, ∃ s4, emitSeq env fuel ws s2 = some s4 ∧ s4.log = s2.log) := by
  have hls1 : listenersOf (onceCallback c s0) = [⟨true, .user c, none⟩] := by
    rw [listenersOf_onceCallback s0 c hs, h0]
    rfl
  have hrp := runPure_plain env v [⟨true, CallbackKind.user c, none⟩]
    (by
      intro l hl
      simp only [List.mem_singleton] at hl
      subst hl
      exact ⟨c, rfl, (henv c).2⟩)
    (onceCallback c s0).log (onceCallback c s0).promises
  have he := emit_noeff henv.noEffects fuel v (onceCallback c s0)
    (by rw [hls1]; simpa using hf)
  rw [hls1, hrp] at he
  simp only [Bool.false_eq_true, if_false] at he
  have hok : (decide (0 < ([(⟨true, CallbackKind.user c, none⟩ : Listener)] : List Listener).length)) = true := rfl
  rw [hok] at he
  have hempty : listenersOf
      ({ onceCallback c s0 with
          heap := (onceCallback c s0).heap ++
            [List.filter (fun l => !l.once)
              [(⟨true, CallbackKind.user c, none⟩ : Listener)]],
          evPtr := (onceCallback c s0).heap.length,
          log := (onceCallback c s0).log ++
            userEntries v [(⟨true, CallbackKind.user c, none⟩ : Listener)],
          promises := (onceCallback c s0).promises } : St T) = [] :=
    listenersOf_postEmit (onceCallback c s0) _ _ _
  refine ⟨_, he, rfl, hempty, ?_, ?_⟩
  · intro w
    exact ⟨_, emit_empty env fuel w _ hempty (by omega)⟩
  · intro ws
    obtain ⟨s4, h1, h2, _, _⟩ := emitSeq_empty env fuel (by omega) ws _ hempty
    exact ⟨s4, h1, h2⟩

/-- Witness for C3 at a concrete input. -/
theorem claim_C3_witness :
    ∃ s2, emit (fun _ => ⟨[], false⟩) 2 9 (onceCallback 4 (initSt Nat)) =
        some (s2, Except.ok true) ∧
      s2.log = (initSt Nat).log ++ [(4, 9)] ∧
      listenersOf s2 = [] ∧
      (∀ w, ∃ s3, emit (fun _ => ⟨[], false⟩) 2 w s2 = some (s3, Except.ok false)) ∧
      (∀ ws : List Nat, ∃ s4, emitSeq (fun _ => ⟨[], false⟩) 2 ws s2 = some s4 ∧
        s4.log = s2.log) :=
  claim_C3_once_fires_exactly_once (fun _ => ⟨[], false⟩) (fun _ => ⟨rfl, rfl⟩)
    4 9 2 (by decide) (initSt Nat) (stWF_init Nat) rfl

/-- C6: an awaitable obtained from the no-argument `once()` starts pending,
is resolved with exactly the value of the next dispatch after its creation,
and only that one (later dispatch sequences never change the resolved
value); and calling `off` with the awaitable handle before any dispatch
succeeds, restores the previous registry, and the promise then stays
pending forever (its continuation is never invoked) no matter how many
dispatches follow. Prior subscriptions are assumed to be plain callback
subscriptions under a non-throwing, non-reentrant environment. -/
theorem claim_C6_awaitable_next_dispatch_and_cancel {T : Type} (env : Env)
    (henv : PureEnv env) (s0 : St T) (hs : StWF s0)
    (hplain : ∀ l ∈ listenersOf s0,
      (∃ c, l.callback = CallbackKind.user c) ∧ l.promise = none)
    (v : T) (fuel : Nat) (hf : (listenersOf s0).length + 1 < fuel) :
    (oncePromise s0).1.promises.getD (oncePromise s0).2 none = none ∧
    (∃ s2, emit env fuel v (oncePromise s0).1 = some (s2, Except.ok true) ∧
      s2.promises.getD (oncePromise s0).2 none = some v ∧
      ∀ ws : List T, ∃ s3, emitSeq env fuel ws s2 = some s3 ∧
        s3.promises.getD (oncePromise s0).2 none = some v) ∧
    ((off (OffTarget.prom (oncePromise s0).2) (oncePromise s0).1).2 = true ∧
      listenersOf (off (OffTarget.prom (oncePromise s0).2) (oncePromise s0).1).1 =
        listenersOf s0 ∧
      ∀ ws : List T, ∃ s4,
        emitSeq env fuel ws
          (off (OffTarget.prom (oncePromise s0).2) (oncePromise s0).1).1 = some s4 ∧
        s4.promises.getD (oncePromise s0).2 none = none) := by
  set pid := s0.promises.length with hpiddef
  set R : Listener := ⟨true, .resolver pid, some pid⟩ with hRdef
  have hpid2 : (oncePromise s0).2 = pid := rfl
  have hps1 : (oncePromise s0).1.promises = s0.promises ++ [none] := rfl
  have hls1 : listenersOf (oncePromise s0).1 = listenersOf s0 ++ [R] :=
    listenersOf_oncePromise s0 hs
  have hpend : (s0.promises ++ [none]).getD pid none = none :=
    listGetD_concat_len _ _ _
  have husers : ∀ l ∈ listenersOf s0,
      ∃ c, l.callback = CallbackKind.user c ∧ (env c).throws = false := by
    intro l hl
    obtain ⟨⟨c, hc⟩, _⟩ := hplain l hl
    exact ⟨c, hc, (henv c).2⟩
  have hallUser : AllUser (listenersOf s0) := by
    intro l hl
    exact (hplain l hl).1
  refine ⟨hpend, ?_, ?_, ?_, ?_⟩
  -- dispatch resolves the promise with v, and later dispatches keep it
  · have hrpUsers := runPure_plain env v (listenersOf s0) husers
      (oncePromise s0).1.log (oncePromise s0).1.promises
    have hcomp : runPure env v (listenersOf s0 ++ [R])
        (oncePromise s0).1.log (oncePromise s0).1.promises =
        ((oncePromise s0).1.log ++ userEntries v (listenersOf s0),
          (oncePromise s0).1.promises.set pid (some v), false) := by
      rw [runPure_append env v _ _ _ _ (by rw [hrpUsers])]
      rw [hrpUsers]
      rw [runPure_resolver_pending env v true (some pid) pid []
        _ _ (by rw [hps1]; exact hpend)]
      rfl
    have he := emit_noeff henv.noEffects fuel v (oncePromise s0).1
      (by rw [hls1]; simp only [List.length_append, List.length_cons, List.length_nil]; omega)
    rw [hls1, hcomp] at he
    simp only [Bool.false_eq_true, if_false] at he
    have hok : decide (0 < (listenersOf s0 ++ [R]).length) = true := by
      simp
    rw [hok] at he
    have hsetlen : pid < (oncePromise s0).1.promises.length := by
      rw [hps1]
      simp [hpiddef]
    have hval : ((oncePromise s0).1.promises.set pid (some v)).getD pid none = some v :=
      listGetD_set_self _ _ _ _ hsetlen
    have hfl : listenersOf
        ({ (oncePromise s0).1 with
            heap := (oncePromise s0).1.heap ++
              [(listenersOf s0 ++ [R]).filter (fun l => !l.once)],
            evPtr := (oncePromise s0).1.heap.length,
            log := (oncePromise s0).1.log ++ userEntries v (listenersOf s0),
            promises := (oncePromise s0).1.promises.set pid (some v) } : St T) =
        (listenersOf s0 ++ [R]).filter (fun l => !l.once) :=
      listenersOf_postEmit (oncePromise s0).1 _ _ _
    have hfilter : (listenersOf s0 ++ [R]).filter (fun l => !l.once) =
        (listenersOf s0).filter (fun l => !l.once) := by
      rw [List.filter_append]
      simp [hRdef]
    have hall2 : AllUser ((listenersOf s0 ++ [R]).filter (fun l => !l.once)) := by
      rw [hfilter]
      intro l hl
      exact hallUser l (List.mem_of_mem_filter hl)
    refine ⟨_, he, hval, ?_⟩
    intro ws
    obtain ⟨s3, h1, h2, _, _⟩ := emitSeq_allUser henv fuel ws _
      (by rw [hfl]; exact hall2)
      (by
        rw [hfl, hfilter]
        have := List.length_filter_le (fun l => !l.once) (listenersOf s0)
        omega)
    refine ⟨s3, h1, ?_⟩
    have hs3 : s3.promises = (oncePromise s0).1.promises.set pid (some v) := h2
    rw [hpid2, hs3, hval]
  -- cancellation: off with the promise handle returns true
  · rw [off_ret, hls1]
    have hfo : (listenersOf s0 ++ [R]).filter
        (keepListener (OffTarget.prom pid)) = listenersOf s0 := by
      rw [List.filter_append]
      have h1 : (listenersOf s0).filter (keepListener (OffTarget.prom pid)) =
          listenersOf s0 := by
        apply List.filter_eq_self.mpr
        intro l hl
        obtain ⟨⟨c, hc⟩, hpr⟩ := hplain l hl
        simp [keepListener, hc, hpr, matchesCb, matchesProm]
      have h2 : ([R] : List Listener).filter
          (keepListener (OffTarget.prom pid)) = [] := by
        simp [hRdef, keepListener, matchesCb, matchesProm]
      rw [h1, h2, List.append_nil]
    rw [hpid2, hfo]
    simp
  -- cancellation restores the previous registry
  · rw [hpid2, listenersOf_off, hls1]
    rw [List.filter_append]
    have h1 : (listenersOf s0).filter (keepListener (OffTarget.prom pid)) =
        listenersOf s0 := by
      apply List.filter_eq_self.mpr
      intro l hl
      obtain ⟨⟨c, hc⟩, hpr⟩ := hplain l hl
      simp [keepListener, hc, hpr, matchesCb, matchesProm]
    have h2 : ([R] : List Listener).filter
        (keepListener (OffTarget.prom pid)) = [] := by
      simp [hRdef, keepListener, matchesCb, matchesProm]
    rw [h1, h2, List.append_nil]
  -- after cancellation the promise stays pending forever
  · intro ws
    have hlo : listenersOf (off (OffTarget.prom pid) (oncePromise s0).1).1 =
        listenersOf s0 := by
      rw [listenersOf_off, hls1, List.filter_append]
      have h1 : (listenersOf s0).filter (keepListener (OffTarget.prom pid)) =
          listenersOf s0 := by
        apply List.filter_eq_self.mpr
        intro l hl
        obtain ⟨⟨c, hc⟩, hpr⟩ := hplain l hl
        simp [keepListener, hc, hpr, matchesCb, matchesProm]
      have h2 : ([R] : List Listener).filter
          (keepListener (OffTarget.prom pid)) = [] := by
        simp [hRdef, keepListener, matchesCb, matchesProm]
      rw [h1, h2, List.append_nil]
    obtain ⟨s4, h1, h2, _, _⟩ := emitSeq_allUser henv fuel ws _
      (by rw [hlo]; exact hallUser)
      (by rw [hlo]; omega)
    refine ⟨s4, h1, ?_⟩
    have hps : s4.promises = s0.promises ++ [none] := by
      rw [h2, off_promises, hps1]
    rw [hpid2, hps]
    exact hpend

/-- Witness for C6 at a concrete input: a fresh event, one awaitable. -/
theorem claim_C6_witness :
    (oncePromise (initSt Nat)).1.promises.getD (oncePromise (initSt Nat)).2 none = none ∧
    (∃ s2, emit (fun _ => ⟨[], false⟩) 2 11 (oncePromise (initSt Nat)).1 =
        some (s2, Except.ok true) ∧
      s2.promises.getD (oncePromise (initSt Nat)).2 none = some 11 ∧
      ∀ ws : List Nat, ∃ s3, emitSeq (fun _ => ⟨[], false⟩) 2 ws s2 = some s3 ∧
        s3.promises.getD (oncePromise (initSt Nat)).2 none = some 11) ∧
    ((off (OffTarget.prom (oncePromise (initSt Nat)).2) (oncePromise (initSt Nat)).1).2 = true ∧
      listenersOf (off (OffTarget.prom (oncePromise (initSt Nat)).2)
        (oncePromise (initSt Nat)).1).1 = listenersOf (initSt Nat) ∧
      ∀ ws : List Nat, ∃ s4,
        emitSeq (fun _ => ⟨[], false⟩) 2 ws
          (off (OffTarget.prom (oncePromise (initSt Nat)).2)
            (oncePromise (initSt Nat)).1).1 = some s4 ∧
        s4.promises.getD (oncePromise (initSt Nat)).2 none = none) :=
  claim_C6_awaitable_next_dispatch_and_cancel (fun _ => ⟨[], false⟩)
    (fun _ => ⟨rfl, rfl⟩) (initSt Nat) (stWF_init Nat)
    (by intro l hl; simp [listenersOf, initSt, arrAt] at hl) 11 2 (by decide)

/-- C2, counterexample to the claim as stated: with a `once` subscriber
registered first (invoked, not throwing) and a throwing `on` subscriber
second, the dispatch throws, but the invoked one-shot subscriber is *not*
already removed: the post-dispatch once-filter never ran, so the listener
list is completely unchanged (the once entry is still registered). -/
theorem claim_C2_counterexample :
    resOutcome (emit (fun c => if c = 1 then ⟨[], true⟩ else ⟨[], false⟩) 10 7
      (BaseEvent.on 1 (onceCallback 0 (initSt Nat)))) = Outcome.threw ∧
    resLog (emit (fun c => if c = 1 then ⟨[], true⟩ else ⟨[], false⟩) 10 7
      (BaseEvent.on 1 (onceCallback 0 (initSt Nat)))) = [(0, 7), (1, 7)] ∧
    resListeners (emit (fun c => if c = 1 then ⟨[], true⟩ else ⟨[], false⟩) 10 7
      (BaseEvent.on 1 (onceCallback 0 (initSt Nat)))) =
      [⟨true, .user 0, none⟩, ⟨false, .user 1, none⟩] :=
  ⟨rfl, rfl, rfl⟩

/-- C2, amended: when a subscriber's callback throws during a dispatch, the
exception propagates synchronously out of the emitter call (`Except.error`)
and subscribers after the throw point are not invoked (the log stops at the
thrower); but the once-filter runs only after a completed pass, so after a
throw the listener list is entirely *unchanged* — one-shot subscribers
invoked before the throw are still registered, as is everything else. -/
theorem claim_C2_amended_throw_skips_filter {T : Type} (env : Env)
    (hne : NoEffects env) (v : T) (s : St T) (fuel : Nat)
    (hf : (listenersOf s).length < fuel)
    (pre post : List Listener) (x : Listener) (c : Nat)
    (hsplit : listenersOf s = pre ++ x :: post)
    (hx : x.callback = CallbackKind.user c) (hc : (env c).throws = true)
    (hpre : ∀ l ∈ pre, ∃ c', l.callback = CallbackKind.user c' ∧ (env c').throws = false) :
    ∃ s', emit env fuel v s = some (s', Except.error ()) ∧
      s'.log = s.log ++ userEntries v pre ++ [(c, v)] ∧
      listenersOf s' = listenersOf s ∧
      s'.promises = s.promises := by
  have hpre' := runPure_plain env v pre hpre s.log s.promises
  have hxstep : runPure env v (x :: post) (s.log ++ userEntries v pre) s.promises
      = (s.log ++ userEntries v pre ++ [(c, v)], s.promises, true) := by
    rcases x with ⟨o, cb, pr⟩
    simp only [Listener.callback] at hx
    subst hx
    rw [runPure]
    simp [hc, List.append_assoc]
  have hfull : runPure env v (pre ++ x :: post) s.log s.promises
      = (s.log ++ userEntries v pre ++ [(c, v)], s.promises, true) := by
    rw [runPure_append env v pre (x :: post) s.log s.promises (by rw [hpre'])]
    rw [hpre']
    exact hxstep
  have he := emit_noeff hne fuel v s hf
  rw [hsplit, hfull] at he
  simp only [if_true] at he
  exact ⟨_, he, rfl, rfl, rfl⟩

/-- Witness for the amended C2 at a concrete input: a once subscriber, then
a throwing subscriber. -/
theorem claim_C2_amended_witness :
    ∃ s', emit (fun c => if c = 1 then ⟨[], true⟩ else ⟨[], false⟩) 3 7
        (BaseEvent.on 1 (onceCallback 0 (initSt Nat))) = some (s', Except.error ()) ∧
      s'.log = (BaseEvent.on 1 (onceCallback 0 (initSt Nat))).log ++
        userEntries 7 [(⟨true, .user 0, none⟩ : Listener)] ++ [(1, 7)] ∧
      listenersOf s' = listenersOf (BaseEvent.on 1 (onceCallback 0 (initSt Nat))) ∧
      s'.promises = (BaseEvent.on 1 (onceCallback 0 (initSt Nat))).promises :=
  claim_C2_amended_throw_skips_filter
    (fun c => if c = 1 then ⟨[], true⟩ else ⟨[], false⟩)
    (fun c => by by_cases h : c = 1 <;> simp [h]) 7
    (BaseEvent.on 1 (onceCallback 0 (initSt Nat))) 3 (by decide)
    [⟨true, .user 0, none⟩] [] ⟨false, .user 1, none⟩ 1 rfl rfl rfl
    (by
      intro l hl
      simp only [List.mem_singleton] at hl
      subst hl
      exact ⟨0, rfl, rfl⟩)

/-- Helper: a full `emit` whose loop completed without a throw. -/
theorem emit_eq_of_loop {T : Type} (env : Env) (fuel : Nat) (v : T)
    (s s1 : St T)
    (h : emitLoop env v s.evPtr fuel 0 s = some (s1, false)) :
    emit env fuel v s = some
      ({ s1 with
          heap := s1.heap ++ [(arrAt s1 s.evPtr).filter (fun l => !l.once)],
          evPtr := s1.heap.length },
        Except.ok (decide (0 < (arrAt s s.evPtr).length))) := by
  rw [emit, h]
  rfl

/-- C1, counterexample to the claim as stated: the dispatch loop iterates
the *live* `listeners` array, and `on` pushes into that same array, so a
subscriber registered by an invoked callback during the dispatch *is*
invoked by that same dispatch: with subscriber `0` whose callback performs
`on(1)`, the dispatch of value `5` logs both `(0, 5)` and `(1, 5)`. -/
theorem claim_C1_counterexample :
    resLog (emit (fun c => if c = 0 then ⟨[Effect.on 1], false⟩ else ⟨[], false⟩)
      10 5 (BaseEvent.on 0 (initSt Nat))) = [(0, 5), (1, 5)] ∧
    resOutcome (emit (fun c => if c = 0 then ⟨[Effect.on 1], false⟩ else ⟨[], false⟩)
      10 5 (BaseEvent.on 0 (initSt Nat))) = Outcome.ret true ∧
    resListeners (emit (fun c => if c = 0 then ⟨[Effect.on 1], false⟩ else ⟨[], false⟩)
      10 5 (BaseEvent.on 0 (initSt Nat))) =
      [⟨false, .user 0, none⟩, ⟨false, .user 1, none⟩] :=
  ⟨rfl, rfl, rfl⟩

/-- C1, amended: a subscriber registered via `on` by an invoked callback
during a dispatch IS invoked by that same dispatch (the `for..of` loop
iterates the live array that `on` appends to; no snapshot copy is taken),
and it remains subscribed afterwards. Shown for a registry holding exactly
the adding subscriber. -/
theorem claim_C1_amended_added_during_dispatch_is_invoked {T : Type}
    (env : Env) (a b : Nat)
    (hA : env a = ⟨[Effect.on b], false⟩) (hB : env b = ⟨[], false⟩) (v : T) :
    ∃ s', emit env 3 v (BaseEvent.on a (initSt T)) = some (s', Except.ok true) ∧
      s'.log = [(a, v), (b, v)] ∧
      listenersOf s' =
        [⟨false, .user a, none⟩, ⟨false, .user b, none⟩] := by
  have hi1 : invokeListener env v (⟨false, .user a, none⟩ : Listener)
      (⟨[[⟨false, CallbackKind.user a, none⟩]], 0, [], [], []⟩ : St T) =
      (⟨[[⟨false, CallbackKind.user a, none⟩, ⟨false, CallbackKind.user b, none⟩]],
        0, [], [(a, v)], []⟩, false) := by
    show (List.foldl (fun acc e => runEffect e acc)
        (⟨[[⟨false, CallbackKind.user a, none⟩]], 0, [], [(a, v)], []⟩ : St T)
        (env a).effects,
      (env a).throws) = _
    rw [hA]
    rfl
  have hi2 : invokeListener env v (⟨false, .user b, none⟩ : Listener)
      (⟨[[⟨false, CallbackKind.user a, none⟩, ⟨false, CallbackKind.user b, none⟩]],
        0, [], [(a, v)], []⟩ : St T) =
      (⟨[[⟨false, CallbackKind.user a, none⟩, ⟨false, CallbackKind.user b, none⟩]],
        0, [], [(a, v), (b, v)], []⟩, false) := by
    show (List.foldl (fun acc e => runEffect e acc)
        (⟨[[⟨false, CallbackKind.user a, none⟩, ⟨false, CallbackKind.user b, none⟩]],
          0, [], [(a, v), (b, v)], []⟩ : St T)
        (env b).effects,
      (env b).throws) = _
    rw [hB]
    rfl
  have hl2 : emitLoop env v 0 1 2
      (⟨[[⟨false, CallbackKind.user a, none⟩, ⟨false, CallbackKind.user b, none⟩]],
        0, [], [(a, v), (b, v)], []⟩ : St T) =
      some (⟨[[⟨false, CallbackKind.user a, none⟩, ⟨false, CallbackKind.user b, none⟩]],
        0, [], [(a, v), (b, v)], []⟩, false) := by
    rw [emitLoop]
    rfl
  have hl1 : emitLoop env v 0 2 1
      (⟨[[⟨false, CallbackKind.user a, none⟩, ⟨false, CallbackKind.user b, none⟩]],
        0, [], [(a, v)], []⟩ : St T) =
      some (⟨[[⟨false, CallbackKind.user a, none⟩, ⟨false, CallbackKind.user b, none⟩]],
        0, [], [(a, v), (b, v)], []⟩, false) := by
    rw [emitLoop]
    have hcond : 1 < (arrAt (⟨[[⟨false, CallbackKind.user a, none⟩,
        ⟨false, CallbackKind.user b, none⟩]], 0, [], [(a, v)], []⟩ : St T) 0).length := by
      norm_num [arrAt]
    rw [dif_pos hcond]
    have hget : (arrAt (⟨[[⟨false, CallbackKind.user a, none⟩,
        ⟨false, CallbackKind.user b, none⟩]], 0, [], [(a, v)], []⟩ : St T) 0).get
        ⟨1, hcond⟩ = ⟨false, .user b, none⟩ := rfl
    rw [hget, hi2]
    exact hl2
  have hl0 : emitLoop env v 0 3 0
      (⟨[[⟨false, CallbackKind.user a, none⟩]], 0, [], [], []⟩ : St T) =
      some (⟨[[⟨false, CallbackKind.user a, none⟩, ⟨false, CallbackKind.user b, none⟩]],
        0, [], [(a, v), (b, v)], []⟩, false) := by
    rw [emitLoop]
    have hcond : 0 < (arrAt (⟨[[⟨false, CallbackKind.user a, none⟩]],
        0, [], [], []⟩ : St T) 0).length := by
      norm_num [arrAt]
    rw [dif_pos hcond]
    have hget : (arrAt (⟨[[⟨false, CallbackKind.user a, none⟩]],
        0, [], [], []⟩ : St T) 0).get ⟨0, hcond⟩ = ⟨false, .user a, none⟩ := rfl
    rw [hget, hi1]
    exact hl1
  exact ⟨_, emit_eq_of_loop env 3 v (BaseEvent.on a (initSt T)) _ hl0, rfl, rfl⟩

/-- Witness for the amended C1 at a concrete input. -/
theorem claim_C1_amended_witness :
    ∃ s', emit (fun c => if c = 0 then ⟨[Effect.on 1], false⟩ else ⟨[], false⟩)
        3 5 (BaseEvent.on 0 (initSt Nat)) = some (s', Except.ok true) ∧
      s'.log = [(0, 5), (1, 5)] ∧
      listenersOf s' = [⟨false, .user 0, none⟩, ⟨false, .user 1, none⟩] :=
  claim_C1_amended_added_during_dispatch_is_invoked
    (fun c => if c = 0 then ⟨[Effect.on 1], false⟩ else ⟨[], false⟩)
    0 1 rfl rfl 5

/-- C10: when an invoked subscriber calls `off(x)` for a non-once
subscription `x` present in the array captured at dispatch start, the
reentrant `off` returns `true` and momentarily removes `x` (right after the
invocation the listener list holds only the remover); but when the dispatch
completes the post-dispatch once-filter reassigns the listener list from
the captured array, so `x` is subscribed again after the emitter call
returns — the reentrant removal is silently undone. -/
theorem claim_C10_reentrant_off_is_undone {T : Type} (env : Env)
    (a b : Nat) (hab : a ≠ b)
    (hA : env a = ⟨[Effect.off (OffTarget.cb b)], false⟩)
    (hB : env b = ⟨[], false⟩) (v : T) :
    listenersOf (invokeListener env v ⟨false, .user a, none⟩
        (BaseEvent.on b (BaseEvent.on a (initSt T)))).1 =
      [⟨false, .user a, none⟩] ∧
    ∃ s', emit env 3 v (BaseEvent.on b (BaseEvent.on a (initSt T))) =
        some (s', Except.ok true) ∧
      s'.offLog = [true] ∧
      s'.log = [(a, v), (b, v)] ∧
      listenersOf s' = [⟨false, .user a, none⟩, ⟨false, .user b, none⟩] := by
  have hba : (b == a) = false := beq_eq_false_iff_ne.mpr (Ne.symm hab)
  have hs0 : BaseEvent.on b (BaseEvent.on a (initSt T)) =
      (⟨[[⟨false, CallbackKind.user a, none⟩, ⟨false, CallbackKind.user b, none⟩]],
        0, [], [], []⟩ : St T) := rfl
  have hi1 : invokeListener env v (⟨false, .user a, none⟩ : Listener)
      (⟨[[⟨false, CallbackKind.user a, none⟩, ⟨false, CallbackKind.user b, none⟩]],
        0, [], [], []⟩ : St T) =
      (⟨[[⟨false, CallbackKind.user a, none⟩, ⟨false, CallbackKind.user b, none⟩],
          [⟨false, CallbackKind.user a, none⟩]],
        1, [], [(a, v)], [true]⟩, false) := by
    show (List.foldl (fun acc e => runEffect e acc)
        (⟨[[⟨false, CallbackKind.user a, none⟩, ⟨false, CallbackKind.user b, none⟩]],
          0, [], [(a, v)], []⟩ : St T)
        (env a).effects,
      (env a).throws) = _
    rw [hA]
    simp [runEffect, off, keepListener, matchesCb, matchesProm, arrAt, alloc,
      setArr, hba]
  have hi2 : invokeListener env v (⟨false, .user b, none⟩ : Listener)
      (⟨[[⟨false, CallbackKind.user a, none⟩, ⟨false, CallbackKind.user b, none⟩],
          [⟨false, CallbackKind.user a, none⟩]],
        1, [], [(a, v)], [true]⟩ : St T) =
      (⟨[[⟨false, CallbackKind.user a, none⟩, ⟨false, CallbackKind.user b, none⟩],
          [⟨false, CallbackKind.user a, none⟩]],
        1, [], [(a, v), (b, v)], [true]⟩, false) := by
    show (List.foldl (fun acc e => runEffect e acc)
        (⟨[[⟨false, CallbackKind.user a, none⟩, ⟨false, CallbackKind.user b, none⟩],
            [⟨false, CallbackKind.user a, none⟩]],
          1, [], [(a, v), (b, v)], [true]⟩ : St T)
        (env b).effects,
      (env b).throws) = _
    rw [hB]
    rfl
  have hl2 : emitLoop env v 0 1 2
      (⟨[[⟨false, CallbackKind.user a, none⟩, ⟨false, CallbackKind.user b, none⟩],
          [⟨false, CallbackKind.user a, none⟩]],
        1, [], [(a, v), (b, v)], [true]⟩ : St T) =
      some (⟨[[⟨false, CallbackKind.user a, none⟩, ⟨false, CallbackKind.user b, none⟩],
          [⟨false, CallbackKind.user a, none⟩]],
        1, [], [(a, v), (b, v)], [true]⟩, false) := by
    rw [emitLoop]
    rfl
  have hl1 : emitLoop env v 0 2 1
      (⟨[[⟨false, CallbackKind.user a, none⟩, ⟨false, CallbackKind.user b, none⟩],
          [⟨false, CallbackKind.user a, none⟩]],
        1, [], [(a, v)], [true]⟩ : St T) =
      some (⟨[[⟨false, CallbackKind.user a, none⟩, ⟨false, CallbackKind.user b, none⟩],
          [⟨false, CallbackKind.user a, none⟩]],
        1, [], [(a, v), (b, v)], [true]⟩, false) := by
    rw [emitLoop]
    have hcond : 1 < (arrAt (⟨[[⟨false, CallbackKind.user a, none⟩,
        ⟨false, CallbackKind.user b, none⟩], [⟨false, CallbackKind.user a, none⟩]],
        1, [], [(a, v)], [true]⟩ : St T) 0).length := by
      norm_num [arrAt]
    rw [dif_pos hcond]
    have hget : (arrAt (⟨[[⟨false, CallbackKind.user a, none⟩,
        ⟨false, CallbackKind.user b, none⟩], [⟨false, CallbackKind.user a, none⟩]],
        1, [], [(a, v)], [true]⟩ : St T) 0).get ⟨1, hcond⟩ =
        ⟨false, .user b, none⟩ := rfl
    rw [hget, hi2]
    exact hl2
  have hl0 : emitLoop env v 0 3 0
      (⟨[[⟨false, CallbackKind.user a, none⟩, ⟨false, CallbackKind.user b, none⟩]],
        0, [], [], []⟩ : St T) =
      some (⟨[[⟨false, CallbackKind.user a, none⟩, ⟨false, CallbackKind.user b, none⟩],
          [⟨false, CallbackKind.user a, none⟩]],
        1, [], [(a, v), (b, v)], [true]⟩, false) := by
    rw [emitLoop]
    have hcond : 0 < (arrAt (⟨[[⟨false, CallbackKind.user a, none⟩,
        ⟨false, CallbackKind.user b, none⟩]], 0, [], [], []⟩ : St T) 0).length := by
      norm_num [arrAt]
    rw [dif_pos hcond]
    have hget : (arrAt (⟨[[⟨false, CallbackKind.user a, none⟩,
        ⟨false, CallbackKind.user b, none⟩]], 0, [], [], []⟩ : St T) 0).get
        ⟨0, hcond⟩ = ⟨false, .user a, none⟩ := rfl
    rw [hget, hi1]
    exact hl1
  rw [hs0]
  refine ⟨by rw [hi1]; rfl, _, emit_eq_of_loop env 3 v _ _ hl0, rfl, rfl, rfl⟩

/-- Witness for C10 at a concrete input. -/
theorem claim_C10_witness :
    listenersOf (invokeListener
        (fun c => if c = 0 then ⟨[Effect.off (OffTarget.cb 1)], false⟩ else ⟨[], false⟩)
        9 ⟨false, .user 0, none⟩
        (BaseEvent.on 1 (BaseEvent.on 0 (initSt Nat)))).1 =
      [⟨false, .user 0, none⟩] ∧
    ∃ s', emit
        (fun c => if c = 0 then ⟨[Effect.off (OffTarget.cb 1)], false⟩ else ⟨[], false⟩)
        3 9 (BaseEvent.on 1 (BaseEvent.on 0 (initSt Nat))) =
        some (s', Except.ok true) ∧
      s'.offLog = [true] ∧
      s'.log = [(0, 9), (1, 9)] ∧
      listenersOf s' = [⟨false, .user 0, none⟩, ⟨false, .user 1, none⟩] :=
  claim_C10_reentrant_off_is_undone
    (fun c => if c = 0 then ⟨[Effect.off (OffTarget.cb 1)], false⟩ else ⟨[], false⟩)
    0 1 (by decide) rfl rfl 9

/-- C9: both factory products expose the emitter's structure: the returned
emitter's `emit` property is the emitter function itself, its `event`
property is the event it dispatches to (likewise for the `Event` class's
own member emitter, and for the sealed-event factory); and calling the
returned emitter is observably identical to calling the event's own bound
member emitter — both dispatch on the registry of the same event object, in
every world and for every environment, fuel and value. -/
theorem claim_C9_emitter_structure_and_equivalence (eid f1 f2 : Nat) :
    (createEventEmitter eid f1 f2).2.emit = (createEventEmitter eid f1 f2).2.self ∧
    (createEventEmitter eid f1 f2).2.event = (createEventEmitter eid f1 f2).1.id ∧
    (createEventEmitter eid f1 f2).1.memberEmit.emit =
      (createEventEmitter eid f1 f2).1.memberEmit.self ∧
    (createEventEmitter eid f1 f2).1.memberEmit.event =
      (createEventEmitter eid f1 f2).1.id ∧
    (createEmitter eid f1).2.emit = (createEmitter eid f1).2.self ∧
    (createEmitter eid f1).2.event = (createEmitter eid f1).1 ∧
    ∀ (T : Type) (env : Env) (fuel : Nat) (v : T) (w : World T),
      EmitterObj.call (createEventEmitter eid f1 f2).2 env fuel v w =
        EmitterObj.call (createEventEmitter eid f1 f2).1.memberEmit env fuel v w :=
  ⟨rfl, rfl, rfl, rfl, rfl, rfl, fun _ _ _ _ _ => rfl⟩

end TsTypedEvents
